import Mathlib

/-!
Verification development for the new-item deduplication and delivery
pipeline of the AI news monitor (`ai_news_monitor.py`).

The definitions below are a shallow embedding of the Python source:
  - `get_article_hash` (MD5 over UTF-8 bytes of trimmed title ++ trimmed url),
  - the SQLite-backed fingerprint store (`is_article_sent`, `mark_article_sent`),
  - `fetch_all_news` (per-source fetch results flattened, hash-deduplicated,
    recency-sorted), and
  - `process_new_articles` (dedup-check, 3-item cap, transport fan-out,
    commit of delivered items).
Machine-level operations are modelled on `Nat` with explicit `% 2 ^ 32`;
fallible SQLite operations return `Except Unit`; Python exceptions caught in
the source correspond to the `.error` branches being handled.
-/

/-! ### MD5 (model of Python's `hashlib.md5(...).hexdigest()`) -/

/-- Left rotation by 32 bits on `Nat` values below `2 ^ 32`. -/
def rotl32 (x n : Nat) : Nat :=
  ((x <<< n) ||| (x >>> (32 - n))) % 2 ^ 32

/-- The 64 MD5 round constants `K[i] = floor(abs(sin(i+1)) * 2^32)`. -/
def md5K : List Nat :=
  [0xd76aa478, 0xe8c7b756, 0x242070db, 0xc1bdceee,
   0xf57c0faf, 0x4787c62a, 0xa8304613, 0xfd469501,
   0x698098d8, 0x8b44f7af, 0xffff5bb1, 0x895cd7be,
   0x6b901122, 0xfd987193, 0xa679438e, 0x49b40821,
   0xf61e2562, 0xc040b340, 0x265e5a51, 0xe9b6c7aa,
   0xd62f105d, 0x02441453, 0xd8a1e681, 0xe7d3fbc8,
   0x21e1cde6, 0xc33707d6, 0xf4d50d87, 0x455a14ed,
   0xa9e3e905, 0xfcefa3f8, 0x676f02d9, 0x8d2a4c8a,
   0xfffa3942, 0x8771f681, 0x6d9d6122, 0xfde5380c,
   0xa4beea44, 0x4bdecfa9, 0xf6bb4b60, 0xbebfbc70,
   0x289b7ec6, 0xeaa127fa, 0xd4ef3085, 0x04881d05,
   0xd9d4d039, 0xe6db99e5, 0x1fa27cf8, 0xc4ac5665,
   0xf4292244, 0x432aff97, 0xab9423a7, 0xfc93a039,
   0x655b59c3, 0x8f0ccc92, 0xffeff47d, 0x85845dd1,
   0x6fa87e4f, 0xfe2ce6e0, 0xa3014314, 0x4e0811a1,
   0xf7537e82, 0xbd3af235, 0x2ad7d2bb, 0xeb86d391]

/-- The 64 per-round left-rotation amounts. -/
def md5S : List Nat :=
  [7, 12, 17, 22, 7, 12, 17, 22, 7, 12, 17, 22, 7, 12, 17, 22,
   5, 9, 14, 20, 5, 9, 14, 20, 5, 9, 14, 20, 5, 9, 14, 20,
   4, 11, 16, 23, 4, 11, 16, 23, 4, 11, 16, 23, 4, 11, 16, 23,
   6, 10, 15, 21, 6, 10, 15, 21, 6, 10, 15, 21, 6, 10, 15, 21]

/-- Round mixing function of MD5 (bitwise not is xor with `0xffffffff`). -/
def md5F (i b c d : Nat) : Nat :=
  if i < 16 then (b &&& c) ||| ((b ^^^ 0xffffffff) &&& d)
  else if i < 32 then (d &&& b) ||| ((d ^^^ 0xffffffff) &&& c)
  else if i < 48 then b ^^^ c ^^^ d
  else c ^^^ (b ||| (d ^^^ 0xffffffff))

/-- Message-word index used in round `i`. -/
def md5G (i : Nat) : Nat :=
  if i < 16 then i
  else if i < 32 then (5 * i + 1) % 16
  else if i < 48 then (3 * i + 5) % 16
  else (7 * i) % 16

/-- Little-endian 32-bit word starting at byte `4 * g` of a 64-byte chunk. -/
def chunkWord (chunk : List Nat) (g : Nat) : Nat :=
  chunk.getD (4 * g) 0 + chunk.getD (4 * g + 1) 0 * 2 ^ 8 +
    chunk.getD (4 * g + 2) 0 * 2 ^ 16 + chunk.getD (4 * g + 3) 0 * 2 ^ 24

/-- One MD5 round applied to state `(a, b, c, d)`. -/
def md5Round (chunk : List Nat) (st : Nat × Nat × Nat × Nat) (i : Nat) :
    Nat × Nat × Nat × Nat :=
  let a := st.1
  let b := st.2.1
  let c := st.2.2.1
  let d := st.2.2.2
  let f := (md5F i b c d + a + md5K.getD i 0 + chunkWord chunk (md5G i)) % 2 ^ 32
  (d, (b + rotl32 f (md5S.getD i 0)) % 2 ^ 32, b, c)

/-- Process one 64-byte chunk: 64 rounds, then add into the running state. -/
def md5Chunk (st : Nat × Nat × Nat × Nat) (chunk : List Nat) :
    Nat × Nat × Nat × Nat :=
  let r := (List.range 64).foldl (md5Round chunk) st
  ((st.1 + r.1) % 2 ^ 32, (st.2.1 + r.2.1) % 2 ^ 32,
   (st.2.2.1 + r.2.2.1) % 2 ^ 32, (st.2.2.2 + r.2.2.2) % 2 ^ 32)

/-- Process a padded message 64 bytes at a time; `fuel` bounds the number of
chunks (each step consumes at least one byte, so `msg.length` is enough). -/
def md5ChunksAux : Nat → Nat × Nat × Nat × Nat → List Nat →
    Nat × Nat × Nat × Nat
  | 0, st, _ => st
  | _ + 1, st, [] => st
  | fuel + 1, st, msg => md5ChunksAux fuel (md5Chunk st (msg.take 64))
      (msg.drop 64)

/-- Process a padded message 64 bytes at a time. -/
def md5Chunks (st : Nat × Nat × Nat × Nat) (msg : List Nat) :
    Nat × Nat × Nat × Nat :=
  md5ChunksAux msg.length st msg

/-- The eight little-endian bytes of the 64-bit message bit length. -/
def md5LenBytes (len : Nat) : List Nat :=
  (List.range 8).map (fun i => 8 * len / 2 ^ (8 * i) % 2 ^ 8)

/-- MD5 padding: `0x80`, zeros to 56 mod 64, then the 64-bit bit length. -/
def md5Pad (msg : List Nat) : List Nat :=
  msg ++ [0x80] ++ List.replicate ((119 - msg.length % 64) % 64) 0 ++
    md5LenBytes msg.length

/-- The four little-endian bytes of a 32-bit word. -/
def wordLE (w : Nat) : List Nat :=
  [w % 2 ^ 8, w / 2 ^ 8 % 2 ^ 8, w / 2 ^ 16 % 2 ^ 8, w / 2 ^ 24 % 2 ^ 8]

/-- The 16-byte MD5 digest of a byte sequence. -/
def md5Bytes (msg : List Nat) : List Nat :=
  let p := md5Chunks (0x67452301, 0xefcdab89, 0x98badcfe, 0x10325476)
    (md5Pad msg)
  wordLE p.1 ++ wordLE p.2.1 ++ wordLE p.2.2.1 ++ wordLE p.2.2.2

/-- Lower-case hexadecimal digit for a value below 16. -/
def hexDigit (n : Nat) : Char :=
  if n < 10 then Char.ofNat (48 + n) else Char.ofNat (87 + n)

/-- Two hexadecimal characters of a byte. -/
def byteHex (b : Nat) : List Char :=
  [hexDigit (b / 16), hexDigit (b % 16)]

/-- Model of hexdigest: the digest rendered as a hexadecimal string. -/
def md5Hex (msg : List Nat) : String :=
  String.mk ((md5Bytes msg).flatMap byteHex)

/-! ### UTF-8 encoding (model of Python's `str.encode('utf-8')`) -/

/-- UTF-8 bytes of one code point. -/
def charUtf8 (c : Char) : List Nat :=
  let n := c.toNat
  if n < 0x80 then [n]
  else if n < 0x800 then [0xc0 + n / 64, 0x80 + n % 64]
  else if n < 0x10000 then [0xe0 + n / 4096, 0x80 + n / 64 % 64, 0x80 + n % 64]
  else [0xf0 + n / 262144, 0x80 + n / 4096 % 64, 0x80 + n / 64 % 64,
    0x80 + n % 64]

/-- UTF-8 bytes of a string. -/
def utf8Bytes (s : String) : List Nat :=
  s.data.flatMap charUtf8

/-! ### `get_article_hash` (source lines 129-140) -/

/-- Python's `str.strip()`: drop whitespace from both ends. -/
def pyStrip (s : String) : String :=
  String.mk
    (((s.data.dropWhile Char.isWhitespace).reverse.dropWhile
      Char.isWhitespace).reverse)

/-- Model of get_article_hash(title, url): MD5 hex digest of the UTF-8 bytes of the
stripped title concatenated with the stripped url. -/
def get_article_hash (title url : String) : String :=
  md5Hex (utf8Bytes (pyStrip title ++ pyStrip url))

/-! ### Data model: articles (dict records built in `fetch_news_from_source`) -/

/-- One article record as built at source lines 237-244: title, url, source
name, published timestamp (empty string when the feed supplied none), the
display summary and the dedup hash. -/
structure Article where
  title : String
  url : String
  source : String
  published : String
  summary : String
  hash : String
deriving DecidableEq

/-- Summary truncation of source lines 233-235: if the summary exceeds 200
characters, keep the first 200 and append an ellipsis marker. -/
def truncateSummary (s : String) : String :=
  if s.length > 200 then String.mk (s.data.take 200) ++ "..." else s

/-! ### `fetch_all_news` (source lines 258-294): dedup and recency sort -/

/-- Hash-based dedup of source lines 272-277: walk the fetched articles in
order, keeping an article only when its hash is truthy (non-empty) and not
seen before; `seen` holds the hashes already kept. -/
def dedupByHash : List Article → List String → List Article
  | [], _ => []
  | a :: rest, seen =>
    if a.hash ≠ "" ∧ a.hash ∉ seen then
      a :: dedupByHash rest (a.hash :: seen)
    else
      dedupByHash rest seen

/-- Model of get_sort_key at source lines 280-288: the published timestamp when
present, otherwise the current time rendered in ISO format (so undated items
compare as most recent). -/
def get_sort_key (now : String) (a : Article) : String :=
  if a.published ≠ "" then a.published else now

/-- Stable descending insertion: place `a` before the first element whose key
is not greater, so earlier articles with equal keys stay first — the order
produced by a stable sort with `reverse=True`. -/
def insertDesc (key : Article → String) (a : Article) :
    List Article → List Article
  | [] => [a]
  | b :: rest =>
    if key a < key b then b :: insertDesc key a rest else a :: b :: rest

/-- Stable sort, descending by `key` (model of `sorted(..., key, reverse=True)`
at source lines 290-291). -/
def sortByKeyDesc (key : Article → String) : List Article → List Article
  | [] => []
  | a :: rest => insertDesc key a (sortByKeyDesc key rest)

/-- Model of fetch_all_news on the already-fetched per-source results (flattened in
source fetch order): dedup by hash keeping first occurrences, then sort by
the recency key, most recent first. Network fetching itself is the external
collaborator and is represented by the `articles` argument. -/
def fetch_all_news (now : String) (articles : List Article) : List Article :=
  sortByKeyDesc (get_sort_key now) (dedupByHash articles [])

/-! ### Fingerprint store (SQLite `sent_articles`, source lines 82-175) -/

/-- One row of the `sent_articles` table (`article_hash` is UNIQUE). -/
structure SentRow where
  article_hash : String
  title : String
  source : String
  sent_at : Nat
  url : String
deriving DecidableEq

/-- A database connection: the rows plus a flag simulating an underlying
storage failure (every SQL statement raising). -/
structure Conn where
  broken : Bool
  rows : List SentRow
deriving DecidableEq

/-- The query SELECT 1 FROM sent_articles WHERE article_hash matches: errors when the
backing store is failing. -/
def selectHash (c : Conn) (h : String) : Except Unit Bool :=
  if c.broken then .error () else .ok (c.rows.any (fun r => r.article_hash == h))

/-- The statement INSERT OR IGNORE INTO sent_articles: a no-op when a row with the
same `article_hash` exists; errors when the backing store is failing. -/
def insertOrIgnore (c : Conn) (row : SentRow) : Except Unit Conn :=
  if c.broken then .error ()
  else if c.rows.any (fun r => r.article_hash == row.article_hash) then .ok c
  else .ok { c with rows := c.rows ++ [row] }

/-- Model of is_article_sent (source lines 142-156): false when there is no
connection; on a storage error the exception is caught and `False` is
returned (fail-open). -/
def is_article_sent (conn : Option Conn) (h : String) : Bool :=
  match conn with
  | none => false
  | some c =>
    match selectHash c h with
    | .error _ => false
    | .ok b => b

/-- Model of mark_article_sent (source lines 158-175): false when there is no
connection; inserts with OR IGNORE and returns `True`; on a storage error the
exception is caught and `False` is returned with the state unchanged. -/
def mark_article_sent (conn : Option Conn) (h title source : String)
    (now : Nat) (url : String) : Option Conn × Bool :=
  match conn with
  | none => (none, false)
  | some c =>
    match insertOrIgnore c ⟨h, title, source, now, url⟩ with
    | .error _ => (some c, false)
    | .ok c2 => (some c2, true)

/-- The connection produced by `init_database` (source lines 82-127): a fresh
working store with an empty `sent_articles` table (the in-memory fallback has
the same shape). -/
def initConn : Option Conn :=
  some ⟨false, []⟩

/-- A sequence of `mark_article_sent` calls threaded through the store. -/
def recordMany (conn : Option Conn)
    (ops : List (String × String × String × Nat × String)) : Option Conn :=
  ops.foldl
    (fun c op => (mark_article_sent c op.1 op.2.1 op.2.2.1 op.2.2.2.1
      op.2.2.2.2).1) conn

/-- Number of rows holding fingerprint `h`. -/
def countHash (conn : Option Conn) (h : String) : Nat :=
  match conn with
  | none => 0
  | some c => c.rows.countP (fun r => r.article_hash == h)

/-! ### Delivery fan-out and the pipeline run (source lines 296-482) -/

/-- Transport configuration and attempt outcomes: the configured flags mirror
`pushover_token and pushover_user` and `webhook_url`; the two functions give
the success/failure result of an attempted send for a given article. -/
structure Transports where
  pushoverConfigured : Bool
  webhookConfigured : Bool
  pushoverOk : Article → Bool
  webhookOk : Article → Bool

/-- The notification_sent flag for one article (source lines 443-453): pushover is
attempted when configured, then the webhook is attempted when configured, and
the flag is set when at least one attempt succeeds. -/
def notifSent (T : Transports) (a : Article) : Bool :=
  (T.pushoverConfigured && T.pushoverOk a) ||
    (T.webhookConfigured && T.webhookOk a)

/-- State of the delivery loop: the store connection, the count of
notifications successfully sent and recorded, and the trace of articles that
have been passed to the transport fan-out. -/
structure LoopState where
  conn : Option Conn
  notificationsSent : Nat
  attempted : List Article
deriving Inhabited

/-- One iteration of the delivery loop (source lines 436-471): attempt the
transports; when at least one succeeded, mark the article as sent and count
it if marking succeeded. -/
def deliverStep (T : Transports) (now : Nat) (st : LoopState) (a : Article) :
    LoopState :=
  let st := { st with attempted := st.attempted ++ [a] }
  if notifSent T a then
    let r := mark_article_sent st.conn a.hash a.title a.source now a.url
    { st with
      conn := r.1
      notificationsSent :=
        if r.2 then st.notificationsSent + 1 else st.notificationsSent }
  else
    st

/-- The delivery loop over a batch of articles. -/
def deliverLoop (T : Transports) (now : Nat) (conn : Option Conn)
    (batch : List Article) : LoopState :=
  batch.foldl (deliverStep T now) ⟨conn, 0, []⟩

/-- Result of one pipeline run: final store connection, notification count,
fan-out trace and the returned list of new articles. -/
structure RunResult where
  conn : Option Conn
  notificationsSent : Nat
  attempted : List Article
  newArticles : List Article

/-- Model of process_new_articles (source lines 407-482) on already-fetched
articles: return early when nothing was fetched; otherwise keep the articles
with a truthy hash not present in the store, deliver at most the first 3 of
them, and return the full new-articles list. -/
def process_new_articles (T : Transports) (now : Nat) (conn : Option Conn)
    (articles : List Article) : RunResult :=
  if articles.isEmpty then ⟨conn, 0, [], []⟩
  else
    let newArticles := articles.filter
      (fun a => a.hash != "" && !is_article_sent conn a.hash)
    let st := deliverLoop T now conn (newArticles.take 3)
    ⟨st.conn, st.notificationsSent, st.attempted, newArticles⟩

/-! ### Concurrency model (source lines 77-78, 142-175, 407-482)

Two pipeline runs race for the same fingerprint `f`. The thread lock
`_db_lock` makes each store operation atomic, so an interleaving is a
sequence of atomic store accesses: a run first executes its dedup check
(`is_article_sent`), and — when that observed "not sent" — later executes its
delivery plus `mark_article_sent` as its next store access. -/

/-- State of one run delivering fingerprint `f`: `pc = 0` before the dedup
check, `pc = 1` between check and delivery, `pc = 2` done. -/
structure RunSt where
  pc : Nat
  sawNotSent : Bool
  delivered : Bool
deriving DecidableEq

/-- The shared system state: the store (list of recorded fingerprints kept by
an insert-or-ignore `record`) and the two runs. -/
structure Sys where
  store : List String
  run1 : RunSt
  run2 : RunSt
deriving DecidableEq

/-- One atomic store access by a run: the dedup check when `pc = 0` (skip to
done if already sent), delivery plus record when `pc = 1`. -/
def runStep (f : String) (store : List String) (r : RunSt) :
    List String × RunSt :=
  match r.pc with
  | 0 =>
    if store.contains f then (store, { r with pc := 2 })
    else (store, { r with pc := 1, sawNotSent := true })
  | 1 =>
    (if store.contains f then store else store ++ [f],
      { r with pc := 2, delivered := true })
  | _ => (store, r)

/-- Scheduler step: `false` lets run 1 act, `true` lets run 2 act. -/
def sysStep (f : String) (s : Sys) (who : Bool) : Sys :=
  if who then
    let r := runStep f s.store s.run2
    { s with store := r.1, run2 := r.2 }
  else
    let r := runStep f s.store s.run1
    { s with store := r.1, run1 := r.2 }

/-- Execute a schedule (an interleaving of the two runs). -/
def execSched (f : String) (sched : List Bool) (s : Sys) : Sys :=
  sched.foldl (sysStep f) s

/-- Both runs fresh, nothing recorded yet. -/
def sysInit : Sys :=
  ⟨[], ⟨0, false, false⟩, ⟨0, false, false⟩⟩

/-! ### Fixtures and small helpers used by concrete statements -/

/-- The row written by `mark_article_sent` for an article at time `now`. -/
def mkRow (now : Nat) (a : Article) : SentRow :=
  ⟨a.hash, a.title, a.source, now, a.url⟩

/-- The sixteen lower-case hexadecimal characters. -/
def hexChars : List Char :=
  "0123456789abcdef".data

/-- A 201-character summary. -/
def longSummary : String :=
  String.mk (List.replicate 201 'a')

/-- Batch of the recency-sort example: published 2024-01-02. -/
def artJan2 : Article :=
  ⟨"t1", "u1", "s", "2024-01-02", "", "h1"⟩

/-- Batch of the recency-sort example: published 2024-01-05. -/
def artJan5 : Article :=
  ⟨"t2", "u2", "s", "2024-01-05", "", "h2"⟩

/-- Batch of the recency-sort example: no published timestamp. -/
def artUndated : Article :=
  ⟨"t3", "u3", "s", "", "", "h3"⟩

/-- An article with fingerprint "ha". -/
def wArtA : Article :=
  ⟨"ta", "ua", "s", "", "", "ha"⟩

/-- A different article sharing the fingerprint "ha". -/
def wArtA2 : Article :=
  ⟨"ta2", "ua2", "s2", "", "", "ha"⟩

/-- An article with fingerprint "hb". -/
def wArtB : Article :=
  ⟨"tb", "ub", "s", "", "", "hb"⟩

/-- Transports where only pushover is configured and it succeeds exactly on
fingerprint "ha". -/
def TP : Transports :=
  ⟨true, false, fun a => a.hash == "ha", fun _ => false⟩

/-- Transports with nothing configured. -/
def T0 : Transports :=
  ⟨false, false, fun _ => false, fun _ => false⟩

/-- A working connection with an empty table. -/
def okConn : Conn :=
  ⟨false, []⟩

/-- A connection whose backing store errors on every statement. -/
def brokenConn : Conn :=
  ⟨true, []⟩

/-- Ten distinct new articles. -/
def arts10 : List Article :=
  [⟨"t0", "u0", "s", "", "", "h0"⟩, ⟨"t1", "u1", "s", "", "", "k1"⟩,
   ⟨"t2", "u2", "s", "", "", "k2"⟩, ⟨"t3", "u3", "s", "", "", "k3"⟩,
   ⟨"t4", "u4", "s", "", "", "k4"⟩, ⟨"t5", "u5", "s", "", "", "k5"⟩,
   ⟨"t6", "u6", "s", "", "", "k6"⟩, ⟨"t7", "u7", "s", "", "", "k7"⟩,
   ⟨"t8", "u8", "s", "", "", "k8"⟩, ⟨"t9", "u9", "s", "", "", "k9"⟩]

/-! ### Helper lemmas: shape of the hexadecimal digest -/

theorem wordLE_length (w : Nat) : (wordLE w).length = 4 := by
  simp [wordLE]

theorem wordLE_mem_lt {w b : Nat} (hb : b ∈ wordLE w) : b < 2 ^ 8 := by
  simp only [wordLE, List.mem_cons, List.not_mem_nil, or_false] at hb
  rcases hb with h | h | h | h <;> subst h <;>
    exact Nat.mod_lt _ (by norm_num)

theorem md5Bytes_length (msg : List Nat) : (md5Bytes msg).length = 16 := by
  simp [md5Bytes, wordLE]

theorem md5Bytes_mem_lt {msg : List Nat} {b : Nat} (hb : b ∈ md5Bytes msg) :
    b < 2 ^ 8 := by
  simp only [md5Bytes, List.mem_append] at hb
  rcases hb with ((h | h) | h) | h <;> exact wordLE_mem_lt h

theorem hexDigit_mem : ∀ n < 16, hexDigit n ∈ hexChars := by decide

theorem byteHex_length (b : Nat) : (byteHex b).length = 2 := by
  simp [byteHex]

theorem byteHex_mem {b : Nat} (hb : b < 2 ^ 8) {c : Char}
    (hc : c ∈ byteHex b) : c ∈ hexChars := by
  simp only [byteHex, List.mem_cons, List.not_mem_nil, or_false] at hc
  rcases hc with h | h <;> subst h
  · exact hexDigit_mem _ (by omega)
  · exact hexDigit_mem _ (Nat.mod_lt _ (by norm_num))

theorem flatMap_byteHex_length (l : List Nat) :
    (l.flatMap byteHex).length = 2 * l.length := by
  induction l with
  | nil => simp
  | cons b rest ih => simp [List.flatMap_cons, byteHex_length, ih]; omega

theorem md5Hex_length (msg : List Nat) : (md5Hex msg).length = 32 := by
  have h := flatMap_byteHex_length (md5Bytes msg)
  rw [md5Bytes_length] at h
  simpa [md5Hex, String.length] using h

theorem md5Hex_mem_hexChars (msg : List Nat) :
    ∀ c ∈ (md5Hex msg).data, c ∈ hexChars := by
  intro c hc
  simp only [md5Hex, String.data] at hc
  rw [List.mem_flatMap] at hc
  obtain ⟨b, hb, hcb⟩ := hc
  exact byteHex_mem (md5Bytes_mem_lt hb) hcb

/-- C3: the fingerprint depends only on the stripped title and stripped url,
and is a 32-character lower-case hexadecimal string. -/
theorem article_hash_deterministic_fixed_hex (t1 u1 t2 u2 : String)
    (ht : pyStrip t1 = pyStrip t2) (hu : pyStrip u1 = pyStrip u2) :
    get_article_hash t1 u1 = get_article_hash t2 u2 ∧
    (get_article_hash t1 u1).length = 32 ∧
    ∀ c ∈ (get_article_hash t1 u1).data, c ∈ hexChars := by
  refine ⟨?_, md5Hex_length _, md5Hex_mem_hexChars _⟩
  unfold get_article_hash
  rw [ht, hu]

theorem article_hash_deterministic_fixed_hex_witness :
    (pyStrip " Title" = pyStrip "Title " ∧ pyStrip "u" = pyStrip " u") ∧
    (get_article_hash " Title" "u" = get_article_hash "Title " " u" ∧
      (get_article_hash " Title" "u").length = 32 ∧
      ∀ c ∈ (get_article_hash " Title" "u").data, c ∈ hexChars) :=
  ⟨⟨by decide, by decide⟩,
    article_hash_deterministic_fixed_hex " Title" "u" "Title " " u"
      (by decide) (by decide)⟩

/-- C10: the hash is computed over the unseparated concatenation of the
stripped title and stripped url, so any two items whose concatenations agree
collide; in particular the distinct items ("ab", "c") and ("a", "bc") get
identical fingerprints. -/
theorem hash_concat_collision :
    (∀ t1 u1 t2 u2 : String,
        pyStrip t1 ++ pyStrip u1 = pyStrip t2 ++ pyStrip u2 →
        get_article_hash t1 u1 = get_article_hash t2 u2) ∧
    (("ab", "c") ≠ (("a", "bc") : String × String)) ∧
    get_article_hash "ab" "c" = get_article_hash "a" "bc" := by
  refine ⟨fun t1 u1 t2 u2 h => ?_, by decide, ?_⟩
  · unfold get_article_hash
    rw [h]
  · unfold get_article_hash
    rw [show pyStrip "ab" ++ pyStrip "c" = pyStrip "a" ++ pyStrip "bc" from
      by decide]

theorem hash_concat_collision_witness :
    (pyStrip "ab " ++ pyStrip " c" = pyStrip "a" ++ pyStrip "bc") ∧
    get_article_hash "ab " " c" = get_article_hash "a" "bc" :=
  ⟨by decide, hash_concat_collision.1 "ab " " c" "a" "bc" (by decide)⟩

/-! ### Summary truncation -/

theorem truncateSummary_long_length {s : String} (h : 200 < s.length) :
    (truncateSummary s).length = 203 := by
  rw [truncateSummary, if_pos h]
  have hl : (String.mk (s.data.take 200)).length = 200 := by
    simp only [String.length]
    rw [List.length_take]
    have : s.data.length = s.length := rfl
    omega
  have h3 : ("..." : String).length = 3 := rfl
  have := String.length_append (String.mk (s.data.take 200)) "..."
  omega

theorem longSummary_length : longSummary.length = 201 := by
  show (List.replicate 201 'a').length = 201
  rw [List.length_replicate]

/-- C7 counterexample: a 201-character summary is truncated to 203 display
units, not at most 200. -/
theorem summary_length_claim_false :
    longSummary.length = 201 ∧
    (truncateSummary longSummary).length = 203 ∧
    ¬ (truncateSummary longSummary).length ≤ 200 := by
  have h := truncateSummary_long_length (s := longSummary)
    (by rw [longSummary_length]; omega)
  exact ⟨longSummary_length, h, by omega⟩

/-- C7 amended: summaries of length at most 200 pass through unchanged; a
longer summary becomes its first 200 characters followed by the 3-character
ellipsis marker, for a total display length of exactly 203 (hence at most
203, not 200). -/
theorem summary_truncation_amended (s : String) :
    (s.length ≤ 200 → truncateSummary s = s) ∧
    (200 < s.length →
      truncateSummary s = String.mk (s.data.take 200) ++ "..." ∧
      (truncateSummary s).length = 203) := by
  constructor
  · intro h
    rw [truncateSummary, if_neg (by omega)]
  · intro h
    exact ⟨by rw [truncateSummary, if_pos h], truncateSummary_long_length h⟩

theorem summary_truncation_amended_witness :
    ("short".length ≤ 200 ∧ truncateSummary "short" = "short") ∧
    (200 < longSummary.length ∧
      (truncateSummary longSummary).length = 203) :=
  ⟨⟨by decide, (summary_truncation_amended "short").1 (by decide)⟩,
    ⟨by rw [longSummary_length]; omega,
      ((summary_truncation_amended longSummary).2
        (by rw [longSummary_length]; omega)).2⟩⟩

/-! ### Recency sort -/

theorem str_0102_lt_0105 : ("2024-01-02" : String) < "2024-01-05" := by
  rw [String.lt_iff_toList_lt]
  decide

/-- C8: with the current time later than both dates, the undated item gets
sort key "now" and is placed first, then 2024-01-05, then 2024-01-02. -/
theorem undated_sorts_first (now : String)
    (h2 : ("2024-01-02" : String) < now) (h5 : ("2024-01-05" : String) < now) :
    fetch_all_news now [artJan2, artJan5, artUndated] =
      [artUndated, artJan5, artJan2] := by
  have hd : dedupByHash [artJan2, artJan5, artUndated] [] =
      [artJan2, artJan5, artUndated] := by decide
  have k2 : get_sort_key now artJan2 = "2024-01-02" := rfl
  have k5 : get_sort_key now artJan5 = "2024-01-05" := rfl
  have ku : get_sort_key now artUndated = now := rfl
  unfold fetch_all_news
  rw [hd]
  simp only [sortByKeyDesc, insertDesc, k2, k5, ku]
  rw [if_pos h5]
  simp only [insertDesc, k2, k5, ku]
  rw [if_pos h2, if_pos str_0102_lt_0105]

theorem undated_sorts_first_witness :
    (("2024-01-02" : String) < "2026-10-12T00:00:00" ∧
      ("2024-01-05" : String) < "2026-10-12T00:00:00") ∧
    fetch_all_news "2026-10-12T00:00:00" [artJan2, artJan5, artUndated] =
      [artUndated, artJan5, artJan2] :=
  ⟨⟨by rw [String.lt_iff_toList_lt]; decide,
    by rw [String.lt_iff_toList_lt]; decide⟩,
    undated_sorts_first "2026-10-12T00:00:00"
      (by rw [String.lt_iff_toList_lt]; decide)
      (by rw [String.lt_iff_toList_lt]; decide)⟩

/-! ### Fingerprint store: idempotent insert -/

theorem mark_preserves_countP_le (conn : Option Conn) (h t s : String)
    (n : Nat) (u : String) (hmo : ∀ g, countHash conn g ≤ 1) :
    ∀ g, countHash (mark_article_sent conn h t s n u).1 g ≤ 1 := by
  intro g
  cases conn with
  | none => simp [countHash, mark_article_sent]
  | some c =>
    have hg := hmo g
    simp only [countHash] at hg
    by_cases hb : c.broken
    · simpa [countHash, mark_article_sent, insertOrIgnore, hb] using hg
    · by_cases ha : c.rows.any (fun r => r.article_hash == h)
      · simpa [countHash, mark_article_sent, insertOrIgnore, hb, ha] using hg
      · simp only [countHash, mark_article_sent, insertOrIgnore, hb, ha,
          if_false, if_true, Bool.false_eq_true, reduceIte]
        simp only [List.countP_append, List.countP_cons, List.countP_nil]
        by_cases hgh : ((⟨h, t, s, n, u⟩ : SentRow).article_hash == g) = true
        · have hgeq : h = g := by simpa using hgh
          have hzero : c.rows.countP (fun r => r.article_hash == g) = 0 := by
            rw [List.countP_eq_zero]
            intro r hr
            simp only [beq_iff_eq]
            rw [← hgeq]
            exact (by simpa using ha : ∀ x ∈ c.rows, ¬ x.article_hash = h) r hr
          simp [hzero, hgh]
        · simp [hgh]
          omega

theorem recordMany_countP_le
    (ops : List (String × String × String × Nat × String)) :
    ∀ conn : Option Conn, (∀ g, countHash conn g ≤ 1) →
    ∀ g, countHash (recordMany conn ops) g ≤ 1 := by
  induction ops with
  | nil =>
    intro conn hc g
    simpa [recordMany] using hc g
  | cons op rest ih =>
    intro conn hc g
    have step := mark_preserves_countP_le conn op.1 op.2.1 op.2.2.1
      op.2.2.2.1 op.2.2.2.2 hc
    simpa [recordMany, List.foldl_cons] using
      (by simpa [recordMany] using ih _ step g :
        countHash (recordMany (mark_article_sent conn op.1 op.2.1 op.2.2.1
          op.2.2.2.1 op.2.2.2.2).1 rest) g ≤ 1)

/-- C2: starting from the freshly initialized store, any sequence of record
calls leaves at most one row per fingerprint; on a usable store with the
fingerprint absent, recording twice returns true both times (the second call
is an ignored no-op) and leaves exactly one row for it; on a failing store
record returns false with the state unchanged. -/
theorem record_idempotent_and_failsafe :
    (∀ (ops : List (String × String × String × Nat × String)) g,
        countHash (recordMany initConn ops) g ≤ 1) ∧
    (∀ (c : Conn) (h t s : String) (n : Nat) (u : String)
        (t' s' : String) (n' : Nat) (u' : String),
        c.broken = false →
        c.rows.countP (fun r => r.article_hash == h) = 0 →
        (mark_article_sent (some c) h t s n u).2 = true ∧
        (mark_article_sent (mark_article_sent (some c) h t s n u).1
          h t' s' n' u').2 = true ∧
        countHash (mark_article_sent (mark_article_sent (some c) h t s n u).1
          h t' s' n' u').1 h = 1) ∧
    (∀ (c : Conn) (h t s : String) (n : Nat) (u : String),
        c.broken = true →
        mark_article_sent (some c) h t s n u = (some c, false)) := by
  refine ⟨?_, ?_, ?_⟩
  · intro ops g
    refine recordMany_countP_le ops initConn ?_ g
    intro g'
    simp [initConn, countHash]
  · intro c h t s n u t' s' n' u' hb hcnt
    have ha : c.rows.any (fun r => r.article_hash == h) = false := by
      rw [List.any_eq_false]
      intro r hr
      have := List.countP_eq_zero.mp hcnt r hr
      simpa using this
    have h1 : mark_article_sent (some c) h t s n u =
        (some ⟨false, c.rows ++ [⟨h, t, s, n, u⟩]⟩, true) := by
      cases c with
      | mk br rows =>
        simp only at hb
        subst hb
        simp [mark_article_sent, insertOrIgnore, ha]
    refine ⟨by rw [h1], ?_, ?_⟩
    · rw [h1]
      simp [mark_article_sent, insertOrIgnore, List.any_append]
    · rw [h1]
      simp only [mark_article_sent, insertOrIgnore, List.any_append]
      simp [countHash, List.countP_append, hcnt]
  · intro c h t s n u hb
    simp [mark_article_sent, insertOrIgnore, hb]

theorem record_idempotent_and_failsafe_witness :
    (countHash (recordMany initConn
        [("f", "t", "s", 0, "u"), ("f", "t2", "s2", 1, "u2")]) "f" ≤ 1) ∧
    (okConn.broken = false ∧
      okConn.rows.countP (fun r => r.article_hash == "f") = 0 ∧
      (mark_article_sent (some okConn) "f" "t" "s" 0 "u").2 = true ∧
      (mark_article_sent (mark_article_sent (some okConn) "f" "t" "s" 0 "u").1
        "f" "t2" "s2" 1 "u2").2 = true ∧
      countHash (mark_article_sent
        (mark_article_sent (some okConn) "f" "t" "s" 0 "u").1
        "f" "t2" "s2" 1 "u2").1 "f" = 1) ∧
    (brokenConn.broken = true ∧
      mark_article_sent (some brokenConn) "g" "t" "s" 0 "u" =
        (some brokenConn, false)) :=
  ⟨record_idempotent_and_failsafe.1 [("f", "t", "s", 0, "u"),
      ("f", "t2", "s2", 1, "u2")] "f",
    ⟨rfl, rfl,
      record_idempotent_and_failsafe.2.1 okConn "f" "t" "s" 0 "u"
        "t2" "s2" 1 "u2" rfl rfl⟩,
    ⟨rfl, record_idempotent_and_failsafe.2.2 brokenConn "g" "t" "s" 0 "u" rfl⟩⟩

/-! ### Delivery loop: fan-out trace and committed rows -/

theorem deliverStep_attempted (T : Transports) (now : Nat) (st : LoopState)
    (a : Article) :
    (deliverStep T now st a).attempted = st.attempted ++ [a] := by
  simp only [deliverStep]
  split <;> rfl

theorem foldl_deliverStep_attempted (T : Transports) (now : Nat) :
    ∀ (batch : List Article) (st : LoopState),
    (batch.foldl (deliverStep T now) st).attempted = st.attempted ++ batch := by
  intro batch
  induction batch with
  | nil => intro st; simp
  | cons a rest ih =>
    intro st
    simp only [List.foldl_cons]
    rw [ih, deliverStep_attempted]
    simp

theorem deliverLoop_attempted (T : Transports) (now : Nat) (conn : Option Conn)
    (batch : List Article) :
    (deliverLoop T now conn batch).attempted = batch := by
  simp [deliverLoop, foldl_deliverStep_attempted]

theorem foldl_deliverStep_clean (T : Transports) (now : Nat) :
    ∀ (batch : List Article) (rows : List SentRow) (k : Nat)
      (tr : List Article),
    (∀ a ∈ batch, rows.any (fun r => r.article_hash == a.hash) = false) →
    (batch.map (fun a => a.hash)).Nodup →
    batch.foldl (deliverStep T now) ⟨some ⟨false, rows⟩, k, tr⟩ =
      ⟨some ⟨false, rows ++ (batch.filter (notifSent T)).map (mkRow now)⟩,
        k + (batch.filter (notifSent T)).length, tr ++ batch⟩ := by
  intro batch
  induction batch with
  | nil => intro rows k tr _ _; simp
  | cons a rest ih =>
    intro rows k tr habs hnd
    have ha : rows.any (fun r => r.article_hash == a.hash) = false :=
      habs a (by simp)
    have hnd' : (rest.map (fun b => b.hash)).Nodup :=
      (List.nodup_cons.mp (by simpa using hnd)).2
    have hafresh : a.hash ∉ rest.map (fun b => b.hash) :=
      (List.nodup_cons.mp (by simpa using hnd)).1
    simp only [List.foldl_cons]
    by_cases hs : notifSent T a = true
    · have hstep : deliverStep T now ⟨some ⟨false, rows⟩, k, tr⟩ a =
          ⟨some ⟨false, rows ++ [mkRow now a]⟩, k + 1, tr ++ [a]⟩ := by
        simp [deliverStep, hs, mark_article_sent, insertOrIgnore, ha, mkRow]
      rw [hstep]
      have habs' : ∀ b ∈ rest,
          (rows ++ [mkRow now a]).any
            (fun r => r.article_hash == b.hash) = false := by
        intro b hb
        rw [List.any_append]
        have h1 : rows.any (fun r => r.article_hash == b.hash) = false :=
          habs b (by simp [hb])
        have h2 : ¬ a.hash = b.hash := by
          intro he
          exact hafresh (he ▸ List.mem_map_of_mem _ hb)
        simp [h1, mkRow, h2]
      rw [ih (rows ++ [mkRow now a]) (k + 1) (tr ++ [a]) habs' hnd']
      simp [List.filter_cons, hs, List.append_assoc]
      omega
    · have hstep : deliverStep T now ⟨some ⟨false, rows⟩, k, tr⟩ a =
          ⟨some ⟨false, rows⟩, k, tr ++ [a]⟩ := by
        simp [deliverStep, hs]
      rw [hstep]
      rw [ih rows k (tr ++ [a]) (fun b hb => habs b (by simp [hb])) hnd']
      simp [List.filter_cons, hs]

theorem deliverLoop_sent_iff (T : Transports) (now : Nat)
    (rows : List SentRow) (batch : List Article)
    (habs : ∀ a ∈ batch, rows.any (fun r => r.article_hash == a.hash) = false)
    (hnd : (batch.map (fun a => a.hash)).Nodup) :
    ∀ a ∈ batch,
      is_article_sent (deliverLoop T now (some ⟨false, rows⟩) batch).conn
        a.hash = notifSent T a := by
  intro a hmem
  rw [deliverLoop, foldl_deliverStep_clean T now batch rows 0 [] habs hnd]
  simp only [is_article_sent, selectHash, Bool.false_eq_true, reduceIte]
  rw [List.any_append]
  rw [habs a hmem, Bool.false_or]
  by_cases hs : notifSent T a = true
  · rw [hs]
    rw [List.any_eq_true]
    exact ⟨mkRow now a,
      List.mem_map_of_mem _ (List.mem_filter.mpr ⟨hmem, hs⟩),
      by simp [mkRow]⟩
  · rw [Bool.not_eq_true] at hs
    rw [hs]
    rw [List.any_eq_false]
    intro r hr
    obtain ⟨b, hb, rfl⟩ := List.mem_map.mp hr
    have hbb := List.mem_filter.mp hb
    intro hbeq
    have heq : b.hash = a.hash := by simpa [mkRow] using hbeq
    have hba : b = a :=
      List.inj_on_of_nodup_map hnd hbb.1 hmem heq
    have htrue : notifSent T a = true := hba ▸ hbb.2
    rw [htrue] at hs
    exact Bool.true_eq_false.mp hs

/-! ### Dedup keeps first occurrences with distinct hashes -/

theorem dedup_mem_props :
    ∀ (l : List Article) (seen : List String) (a : Article),
    a ∈ dedupByHash l seen →
      a.hash ∉ seen ∧ a.hash ≠ "" ∧
      l.find? (fun b => b.hash == a.hash) = some a := by
  intro l
  induction l with
  | nil => intro seen a ha; simp [dedupByHash] at ha
  | cons x rest ih =>
    intro seen a ha
    rw [dedupByHash] at ha
    by_cases hc : x.hash ≠ "" ∧ x.hash ∉ seen
    · rw [if_pos hc] at ha
      rcases List.mem_cons.mp ha with rfl | hmem
      · refine ⟨hc.2, hc.1, ?_⟩
        rw [List.find?_cons_of_pos _ (by simp)]
      · obtain ⟨hseen, hne, hfind⟩ := ih (x.hash :: seen) a hmem
        have hxa : ¬ (x.hash == a.hash) = true := by
          simp only [beq_iff_eq]
          intro he
          exact hseen (by rw [← he]; exact List.mem_cons_self x.hash seen)
        refine ⟨fun hs => hseen (List.mem_cons_of_mem _ hs), hne, ?_⟩
        rw [List.find?_cons_of_neg (p := fun b => b.hash == a.hash) rest hxa]
        exact hfind
    · rw [if_neg hc] at ha
      obtain ⟨hseen, hne, hfind⟩ := ih seen a ha
      have hor : x.hash = "" ∨ x.hash ∈ seen := by
        by_cases h1 : x.hash = ""
        · exact Or.inl h1
        · refine Or.inr ?_
          by_contra h2
          exact hc ⟨h1, h2⟩
      have hxa : ¬ (x.hash == a.hash) = true := by
        simp only [beq_iff_eq]
        intro he
        rcases hor with h1 | h1
        · exact hne (he ▸ h1)
        · exact hseen (he ▸ h1)
      refine ⟨hseen, hne, ?_⟩
      rw [List.find?_cons_of_neg (p := fun b => b.hash == a.hash) rest hxa]
      exact hfind

theorem dedup_hash_nodup :
    ∀ (l : List Article) (seen : List String),
    ((dedupByHash l seen).map (fun a => a.hash)).Nodup := by
  intro l
  induction l with
  | nil => intro seen; simp [dedupByHash]
  | cons x rest ih =>
    intro seen
    rw [dedupByHash]
    by_cases hc : x.hash ≠ "" ∧ x.hash ∉ seen
    · rw [if_pos hc]
      simp only [List.map_cons, List.nodup_cons]
      refine ⟨?_, ih _⟩
      intro hmem
      obtain ⟨b, hb, hbh⟩ := List.mem_map.mp hmem
      exact (dedup_mem_props rest (x.hash :: seen) b hb).1
        (by rw [hbh]; exact List.mem_cons_self x.hash seen)
    · rw [if_neg hc]
      exact ih seen

/-! ### The recency sort is a permutation -/

theorem insertDesc_perm (key : Article → String) (a : Article) :
    ∀ l : List Article, List.Perm (insertDesc key a l) (a :: l) := by
  intro l
  induction l with
  | nil => simp [insertDesc]
  | cons b rest ih =>
    rw [insertDesc]
    by_cases h : key a < key b
    · rw [if_pos h]
      exact (ih.cons b).trans (List.Perm.swap a b rest)
    · rw [if_neg h]

theorem sortByKeyDesc_perm (key : Article → String) :
    ∀ l : List Article, List.Perm (sortByKeyDesc key l) l := by
  intro l
  induction l with
  | nil => simp [sortByKeyDesc]
  | cons a rest ih =>
    rw [sortByKeyDesc]
    exact (insertDesc_perm key a _).trans (ih.cons a)

theorem fetch_hash_nodup (now : String) (arts : List Article) :
    ((fetch_all_news now arts).map (fun a => a.hash)).Nodup := by
  have hperm : List.Perm (fetch_all_news now arts) (dedupByHash arts []) :=
    sortByKeyDesc_perm _ _
  exact ((hperm.map _).nodup_iff).mpr (dedup_hash_nodup arts [])

/-! ### Pipeline run characterization -/

theorem process_new_articles_eq (T : Transports) (now : Nat)
    (conn : Option Conn) (arts : List Article)
    (h : ¬ arts.isEmpty = true) :
    process_new_articles T now conn arts =
      ⟨(deliverLoop T now conn ((arts.filter (fun a => a.hash != "" &&
          !is_article_sent conn a.hash)).take 3)).conn,
        (deliverLoop T now conn ((arts.filter (fun a => a.hash != "" &&
          !is_article_sent conn a.hash)).take 3)).notificationsSent,
        (arts.filter (fun a => a.hash != "" &&
          !is_article_sent conn a.hash)).take 3,
        arts.filter (fun a => a.hash != "" &&
          !is_article_sent conn a.hash)⟩ := by
  rw [process_new_articles, if_neg h]
  simp only [RunResult.mk.injEq]
  exact ⟨trivial, trivial, deliverLoop_attempted _ _ _ _, trivial⟩

/-- C5: the run delivers at most the first 3 new items (exactly 3 when 10
items are new) while returning the full pre-cap list of new items. -/
theorem batch_cap_and_full_return (T : Transports) (now : Nat)
    (conn : Option Conn) (arts : List Article) :
    (process_new_articles T now conn arts).newArticles =
      arts.filter (fun a => a.hash != "" && !is_article_sent conn a.hash) ∧
    (process_new_articles T now conn arts).attempted =
      (process_new_articles T now conn arts).newArticles.take 3 ∧
    (process_new_articles T now conn arts).attempted.length ≤ 3 ∧
    ((process_new_articles T now conn arts).newArticles.length = 10 →
      (process_new_articles T now conn arts).attempted.length = 3) := by
  by_cases hemp : arts.isEmpty = true
  · have : arts = [] := List.isEmpty_iff.mp hemp
    subst this
    simp [process_new_articles]
  · rw [process_new_articles_eq T now conn arts hemp]
    refine ⟨rfl, rfl, ?_, ?_⟩
    · simp only [List.length_take]
      omega
    · intro h10
      simp only [List.length_take]
      simp only [List.length_take] at h10 ⊢
      omega
  
theorem batch_cap_and_full_return_witness :
    (process_new_articles T0 0 initConn arts10).newArticles.length = 10 ∧
    (process_new_articles T0 0 initConn arts10).attempted.length = 3 :=
  ⟨by decide,
    (batch_cap_and_full_return T0 0 initConn arts10).2.2.2 (by decide)⟩

/-- C1: for every item handed to the delivery fan-out of a run over fetched
news and every transport configuration, on a usable store the item's
fingerprint ends up recorded iff at least one configured transport attempt
succeeded; when all transports fail or are unconfigured the item stays
unrecorded (still reported "not sent", so it is retried next run). -/
theorem fingerprint_recorded_iff_transport_success
    (T : Transports) (now : Nat) (nowStr : String) (c : Conn)
    (arts : List Article) (hb : c.broken = false) :
    ∀ a ∈ (process_new_articles T now (some c)
        (fetch_all_news nowStr arts)).attempted,
      is_article_sent (process_new_articles T now (some c)
        (fetch_all_news nowStr arts)).conn a.hash = notifSent T a := by
  intro a ha
  obtain ⟨cb, rows⟩ := c
  simp only at hb
  subst hb
  by_cases hemp : (fetch_all_news nowStr arts).isEmpty = true
  · rw [process_new_articles, if_pos hemp] at ha
    simp at ha
  · rw [process_new_articles_eq _ _ _ _ hemp] at ha ⊢
    dsimp only at ha ⊢
    have habs : ∀ b ∈ (((fetch_all_news nowStr arts).filter
        (fun x => x.hash != "" &&
          !is_article_sent (some (Conn.mk false rows)) x.hash)).take 3),
        rows.any (fun r => r.article_hash == b.hash) = false := by
      intro b hbmem
      have hbf := List.mem_of_mem_take hbmem
      have hpf := (List.mem_filter.mp hbf).2
      simp only [Bool.and_eq_true, Bool.not_eq_true'] at hpf
      simpa [is_article_sent, selectHash] using hpf.2
    have hnd : ((((fetch_all_news nowStr arts).filter
        (fun x => x.hash != "" &&
          !is_article_sent (some (Conn.mk false rows)) x.hash)).take 3).map
        (fun a => a.hash)).Nodup := by
      have hsub : List.Sublist (((fetch_all_news nowStr arts).filter
          (fun x => x.hash != "" &&
            !is_article_sent (some (Conn.mk false rows)) x.hash)).take 3)
          (fetch_all_news nowStr arts) :=
        (List.take_sublist _ _).trans (List.filter_sublist _)
      exact List.Nodup.sublist (hsub.map _) (fetch_hash_nodup nowStr arts)
    exact deliverLoop_sent_iff T now rows _ habs hnd a ha

theorem fingerprint_recorded_iff_transport_success_witness :
    okConn.broken = false ∧
    ∀ a ∈ (process_new_articles TP 0 (some okConn)
        (fetch_all_news "now" [wArtA, wArtB])).attempted,
      is_article_sent (process_new_articles TP 0 (some okConn)
        (fetch_all_news "now" [wArtA, wArtB])).conn a.hash = notifSent TP a :=
  ⟨rfl, fingerprint_recorded_iff_transport_success TP 0 "now" okConn
    [wArtA, wArtB] rfl⟩

/-- C4: the dedup lookup never raises and fails open: with no connection or a
failing backing store it answers false, and a run over a failing store still
completes, treating every truthy-hash item as new and still passing the
first 3 of them to delivery. -/
theorem has_fail_open_run_completes :
    (∀ h, is_article_sent none h = false) ∧
    (∀ (c : Conn) (h : String), c.broken = true →
      is_article_sent (some c) h = false) ∧
    (∀ (T : Transports) (now : Nat) (c : Conn) (arts : List Article),
      c.broken = true →
      (process_new_articles T now (some c) arts).newArticles =
        arts.filter (fun a => a.hash != "") ∧
      (process_new_articles T now (some c) arts).attempted =
        (arts.filter (fun a => a.hash != "")).take 3) := by
  refine ⟨fun h => rfl, ?_, ?_⟩
  · intro c h hb
    simp [is_article_sent, selectHash, hb]
  · intro T now c arts hb
    have hfc : arts.filter (fun a => a.hash != "" &&
        !is_article_sent (some c) a.hash) =
        arts.filter (fun a => a.hash != "") := by
      refine List.filter_congr ?_
      intro a _
      simp [is_article_sent, selectHash, hb]
    by_cases hemp : arts.isEmpty = true
    · have : arts = [] := List.isEmpty_iff.mp hemp
      subst this
      simp [process_new_articles]
    · rw [process_new_articles_eq T now (some c) arts hemp]
      dsimp only
      rw [hfc]
      exact ⟨rfl, rfl⟩

theorem has_fail_open_run_completes_witness :
    (brokenConn.broken = true ∧
      is_article_sent (some brokenConn) "h" = false) ∧
    ((process_new_articles T0 0 (some brokenConn) [wArtA]).newArticles =
        [wArtA].filter (fun a => a.hash != "") ∧
      (process_new_articles T0 0 (some brokenConn) [wArtA]).attempted =
        ([wArtA].filter (fun a => a.hash != "")).take 3) :=
  ⟨⟨rfl, has_fail_open_run_completes.2.1 brokenConn "h" rfl⟩,
    has_fail_open_run_completes.2.2 T0 0 brokenConn [wArtA] rfl⟩

/-! ### C6: at most one notification per fingerprint in a run -/

theorem dedup_countP_le (l : List Article) (h : String) :
    (dedupByHash l []).countP (fun a => a.hash == h) ≤ 1 := by
  have hnd := dedup_hash_nodup l []
  have hc : (dedupByHash l []).countP (fun a => a.hash == h) =
      ((dedupByHash l []).map (fun a => a.hash)).count h := by
    rw [List.count]
    rw [List.countP_map]
    rfl
  rw [hc]
  exact List.nodup_iff_count_le_one.mp hnd h

theorem fetch_countP_le (now : String) (arts : List Article) (h : String) :
    (fetch_all_news now arts).countP (fun a => a.hash == h) ≤ 1 := by
  have hperm : List.Perm (fetch_all_news now arts) (dedupByHash arts []) :=
    sortByKeyDesc_perm _ _
  rw [hperm.countP_eq]
  exact dedup_countP_le arts h

/-- C6: the batch dedup keeps at most one article per fingerprint, keeping
the first occurrence in fetch order, and a run over fetched news passes at
most one article per fingerprint to the delivery fan-out. -/
theorem dedup_first_occurrence_single_delivery :
    (∀ (l : List Article) (h : String),
        (dedupByHash l []).countP (fun a => a.hash == h) ≤ 1) ∧
    (∀ (l : List Article) (a : Article), a ∈ dedupByHash l [] →
        l.find? (fun b => b.hash == a.hash) = some a) ∧
    (∀ (T : Transports) (now : Nat) (nowStr : String) (conn : Option Conn)
        (arts : List Article) (h : String),
        ((process_new_articles T now conn
            (fetch_all_news nowStr arts)).attempted.countP
          (fun a => a.hash == h)) ≤ 1) := by
  refine ⟨dedup_countP_le, fun l a ha => (dedup_mem_props l [] a ha).2.2, ?_⟩
  intro T now nowStr conn arts h
  by_cases hemp : (fetch_all_news nowStr arts).isEmpty = true
  · rw [process_new_articles, if_pos hemp]
    simp
  · rw [process_new_articles_eq _ _ _ _ hemp]
    dsimp only
    have hsub : List.Sublist (((fetch_all_news nowStr arts).filter
        (fun a => a.hash != "" && !is_article_sent conn a.hash)).take 3)
        (fetch_all_news nowStr arts) :=
      (List.take_sublist _ _).trans (List.filter_sublist _)
    exact le_trans (hsub.countP_le _) (fetch_countP_le nowStr arts h)

theorem dedup_first_occurrence_single_delivery_witness :
    (wArtA ∈ dedupByHash [wArtA, wArtA2] []) ∧
    [wArtA, wArtA2].find? (fun b => b.hash == wArtA.hash) = some wArtA :=
  ⟨by decide,
    dedup_first_occurrence_single_delivery.2.1 [wArtA, wArtA2] wArtA
      (by decide)⟩

/-! ### C9: store-level serialization versus the check-then-act race -/

theorem run_step_inv (f : String) (store : List String) (r : RunSt)
    (h1 : ∀ x ∈ store, x = f)
    (h2 : store.countP (fun x => x == f) ≤ 1)
    (h3 : r.delivered = true → f ∈ store) :
    (∀ x ∈ (runStep f store r).1, x = f) ∧
    (runStep f store r).1.countP (fun x => x == f) ≤ 1 ∧
    ((runStep f store r).2.delivered = true → f ∈ (runStep f store r).1) ∧
    (f ∈ store → f ∈ (runStep f store r).1) := by
  rcases hpc : r.pc with _ | _ | n
  · by_cases hcont : store.contains f = true
    · simp only [runStep, hpc, hcont, if_true]
      exact ⟨h1, h2, h3, id⟩
    · simp only [runStep, hpc, hcont, Bool.false_eq_true, if_false, reduceIte]
      exact ⟨h1, h2, h3, id⟩
  · by_cases hcont : store.contains f = true
    · simp only [runStep, hpc, hcont, if_true]
      refine ⟨h1, h2, fun _ => ?_, id⟩
      simpa using hcont
    · have hnil : store = [] := by
        cases store with
        | nil => rfl
        | cons y ys =>
          have hy : y = f := h1 y (List.mem_cons_self y ys)
          exact absurd (by simp [hy] : (y :: ys).contains f = true) hcont
      subst hnil
      simp [runStep, hpc]
  · simp only [runStep, hpc]
    exact ⟨h1, h2, h3, id⟩

theorem sys_step_inv (f : String) (w : Bool) (s : Sys)
    (h1 : ∀ x ∈ s.store, x = f)
    (h2 : s.store.countP (fun x => x == f) ≤ 1)
    (h3 : s.run1.delivered = true → f ∈ s.store)
    (h4 : s.run2.delivered = true → f ∈ s.store) :
    (∀ x ∈ (sysStep f s w).store, x = f) ∧
    (sysStep f s w).store.countP (fun x => x == f) ≤ 1 ∧
    ((sysStep f s w).run1.delivered = true → f ∈ (sysStep f s w).store) ∧
    ((sysStep f s w).run2.delivered = true → f ∈ (sysStep f s w).store) := by
  cases w
  · have hr := run_step_inv f s.store s.run1 h1 h2 h3
    simp only [sysStep, Bool.false_eq_true, reduceIte]
    exact ⟨hr.1, hr.2.1, hr.2.2.1, fun hd => hr.2.2.2 (h4 hd)⟩
  · have hr := run_step_inv f s.store s.run2 h1 h2 h4
    simp only [sysStep, reduceIte]
    exact ⟨hr.1, hr.2.1, fun hd => hr.2.2.2 (h3 hd), hr.2.2.1⟩

theorem exec_sched_inv (f : String) (sched : List Bool) :
    ∀ s : Sys, (∀ x ∈ s.store, x = f) →
    s.store.countP (fun x => x == f) ≤ 1 →
    (s.run1.delivered = true → f ∈ s.store) →
    (s.run2.delivered = true → f ∈ s.store) →
    (∀ x ∈ (execSched f sched s).store, x = f) ∧
    (execSched f sched s).store.countP (fun x => x == f) ≤ 1 ∧
    ((execSched f sched s).run1.delivered = true →
      f ∈ (execSched f sched s).store) ∧
    ((execSched f sched s).run2.delivered = true →
      f ∈ (execSched f sched s).store) := by
  induction sched with
  | nil =>
    intro s h1 h2 h3 h4
    simpa [execSched] using ⟨h1, h2, h3, h4⟩
  | cons w rest ih =>
    intro s h1 h2 h3 h4
    have hs := sys_step_inv f w s h1 h2 h3 h4
    have := ih (sysStep f s w) hs.1 hs.2.1 hs.2.2.1 hs.2.2.2
    simpa [execSched, List.foldl_cons] using this

/-- C9 counterexample: with per-operation locking only, the interleaving
check1, check2, deliver1, deliver2 lets both runs observe "not yet sent" for
the same fingerprint and both deliver it. -/
theorem store_lock_race_counterexample :
    (execSched "f" [false, true, false, true] sysInit).run1.sawNotSent =
      true ∧
    (execSched "f" [false, true, false, true] sysInit).run1.delivered =
      true ∧
    (execSched "f" [false, true, false, true] sysInit).run2.sawNotSent =
      true ∧
    (execSched "f" [false, true, false, true] sysInit).run2.delivered =
      true := by
  decide

/-- C9 amended: each store access is atomic under the lock, so under every
interleaving the store is never corrupted — it never holds a duplicate
record for the fingerprint and a delivered run's record is present — but
the check-then-deliver sequence is not atomic: for every fingerprint there
is an interleaving of two runs in which both observe "not yet sent" and
both deliver. -/
theorem store_serialized_but_check_act_races :
    (∀ (f : String) (sched : List Bool),
      (∀ x ∈ (execSched f sched sysInit).store, x = f) ∧
      (execSched f sched sysInit).store.countP (fun x => x == f) ≤ 1 ∧
      ((execSched f sched sysInit).run1.delivered = true →
        f ∈ (execSched f sched sysInit).store) ∧
      ((execSched f sched sysInit).run2.delivered = true →
        f ∈ (execSched f sched sysInit).store)) ∧
    (∀ f : String,
      (execSched f [false, true, false, true] sysInit).run1.sawNotSent =
        true ∧
      (execSched f [false, true, false, true] sysInit).run1.delivered =
        true ∧
      (execSched f [false, true, false, true] sysInit).run2.sawNotSent =
        true ∧
      (execSched f [false, true, false, true] sysInit).run2.delivered =
        true) := by
  constructor
  · intro f sched
    exact exec_sched_inv f sched sysInit (by simp [sysInit])
      (by simp [sysInit]) (by simp [sysInit]) (by simp [sysInit])
  · intro f
    simp [execSched, sysStep, runStep, sysInit]

theorem store_serialized_but_check_act_races_witness :
    ((execSched "g" [false, false] sysInit).run1.delivered = true) ∧
    "g" ∈ (execSched "g" [false, false] sysInit).store :=
  ⟨by decide,
    (store_serialized_but_check_act_races.1 "g" [false, false]).2.2.1
      (by decide)⟩
